import Mathlib

/-!
# Verification of `src/filesystem/demo.py`

A shallow embedding of the distributed-file-system demo: a content-addressable
blob store (`ContentAddressableStorage`), a metadata service with a Raft-style
operation log over a path-keyed namespace (`MetadataService`), and the facade
composing the two (`DistributedFileSystem`).  Python dicts are embedded as
insertion-ordered association lists, mutation as explicit state passing, and
the Python string builtins used by the code (`split`, `rstrip`, `join`,
string `<=`, stable `sorted`) as structural-recursive functions with the same
semantics.
-/

namespace Demo

/-- One element of a Python `bytes` value: an integer in `[0, 256)`. -/
abbrev Byte := Fin 256

/-- A Python `bytes` value: a finite sequence of bytes. -/
abbrev Bytes := List Byte

/-- The sixteen lowercase hex digit characters, as used by `hexdigest`. -/
def hexChar : Nat → Char
  | 0 => '0' | 1 => '1' | 2 => '2' | 3 => '3' | 4 => '4' | 5 => '5' | 6 => '6'
  | 7 => '7' | 8 => '8' | 9 => '9' | 10 => 'a' | 11 => 'b' | 12 => 'c'
  | 13 => 'd' | 14 => 'e' | _ => 'f'

/-- The two hex digits encoding one byte. -/
def byteHex (b : Byte) : List Char := [hexChar (b.val / 16), hexChar (b.val % 16)]

/-- Models `hashlib.sha256(content).hexdigest()` (demo.py lines 49 and 68): a
deterministic digest string computed from the exact byte sequence.  The
cryptographic hash is idealized by the two properties an actual SHA-256 hex
digest provides to this program: it is collision-free (injective, the standard
idealization for content addressing) and never the empty string (a real digest
is 64 hex characters).  Concretely the digest here is the byte-wise hex
encoding prefixed by a marker character. -/
def sha256_hexdigest (content : Bytes) : String :=
  String.mk ('x' :: (content.map byteHex).flatten)

/-- `hexChar` is injective on hex digit values. -/
lemma hexChar_inj : ∀ m < 16, ∀ n < 16, hexChar m = hexChar n → m = n := by decide

/-- Concatenated byte-wise hex encodings determine the bytes. -/
lemma flatten_byteHex_inj :
    ∀ {as bs : Bytes}, (as.map byteHex).flatten = (bs.map byteHex).flatten → as = bs := by
  intro as
  induction as with
  | nil =>
    intro bs h
    cases bs with
    | nil => rfl
    | cons b bs => simp [byteHex] at h
  | cons a as ih =>
    intro bs h
    cases bs with
    | nil => simp [byteHex] at h
    | cons b bs =>
      simp only [List.map_cons, List.flatten_cons, byteHex, List.cons_append,
        List.nil_append, List.cons.injEq] at h
      obtain ⟨h1, h2, h3⟩ := h
      have hav := a.isLt
      have hbv := b.isLt
      have e1 : a.val / 16 < 16 := by omega
      have e2 : b.val / 16 < 16 := by omega
      have e3 : a.val % 16 < 16 := by omega
      have e4 : b.val % 16 < 16 := by omega
      have d1 := hexChar_inj _ e1 _ e2 h1
      have d2 := hexChar_inj _ e3 _ e4 h2
      have hab : a = b := Fin.ext (by omega)
      have hrest : as = bs := ih h3
      rw [hab, hrest]

/-- The digest function is injective: the collision-freeness idealization. -/
lemma sha256_hexdigest_inj {a b : Bytes}
    (h : sha256_hexdigest a = sha256_hexdigest b) : a = b := by
  unfold sha256_hexdigest at h
  have h2 : ('x' :: (a.map byteHex).flatten) = 'x' :: (b.map byteHex).flatten :=
    congrArg String.data h
  injection h2 with _ h3
  exact flatten_byteHex_inj h3

/-- The digest is never the empty string, so a file's `content_hash` is never
the directory sentinel `""`. -/
lemma sha256_hexdigest_ne_empty (b : Bytes) : sha256_hexdigest b ≠ "" := by
  intro h
  have h2 : ('x' :: (b.map byteHex).flatten) = ("" : String).data :=
    congrArg String.data h
  have h3 : ("" : String).data = [] := rfl
  rw [h3] at h2
  exact List.cons_ne_nil _ _ h2

/-! ## Python dict operations, over insertion-ordered association lists -/

/-- Python `d.get(k)` / `d[k]`: the value bound to `k` (first binding wins;
dicts reachable in this program never hold duplicate keys). -/
def dictGet? {α : Type} : List (String × α) → String → Option α
  | [], _ => none
  | e :: es, k => if e.1 = k then some e.2 else dictGet? es k

/-- Python `k in d`. -/
def dictContains {α : Type} (m : List (String × α)) (k : String) : Bool :=
  (dictGet? m k).isSome

/-- Python `d[k] = v` at a key checked to be absent: a new binding appended in
insertion order. -/
def dictInsert {α : Type} (m : List (String × α)) (k : String) (v : α) :
    List (String × α) :=
  m ++ [(k, v)]

/-- Python `del d[k]`: drops the binding of `k`, keeping the rest in order. -/
def dictErase {α : Type} (m : List (String × α)) (k : String) :
    List (String × α) :=
  m.filter (fun e => decide (e.1 ≠ k))

lemma dictContains_iff {α : Type} {m : List (String × α)} {k : String} :
    dictContains m k = true ↔ ∃ v, (k, v) ∈ m := by
  induction m with
  | nil => simp [dictContains, dictGet?]
  | cons e es ih =>
    obtain ⟨k1, v1⟩ := e
    by_cases h : k1 = k
    · subst h
      constructor
      · intro _
        exact ⟨v1, List.mem_cons_self _ _⟩
      · intro _
        simp [dictContains, dictGet?]
    · have heq : dictContains ((k1, v1) :: es) k = dictContains es k := by
        simp [dictContains, dictGet?, h]
      rw [heq, ih]
      constructor
      · rintro ⟨v, hv⟩
        exact ⟨v, List.mem_cons_of_mem _ hv⟩
      · rintro ⟨v, hv⟩
        rcases List.mem_cons.mp hv with he | hm
        · injection he with h1 h2
          exact absurd h1.symm h
        · exact ⟨v, hm⟩

lemma dictGet?_eq_none {α : Type} {m : List (String × α)} {k : String} :
    dictGet? m k = none ↔ dictContains m k = false := by
  unfold dictContains
  cases h : dictGet? m k <;> simp

lemma dictGet?_append_left {α : Type} {m m2 : List (String × α)} {k : String}
    {v : α} (h : dictGet? m k = some v) : dictGet? (m ++ m2) k = some v := by
  induction m with
  | nil => simp [dictGet?] at h
  | cons e es ih =>
    simp only [dictGet?, List.cons_append] at *
    by_cases he : e.1 = k
    · simpa [he] using h
    · rw [if_neg he] at h ⊢; exact ih h

lemma dictGet?_append_right {α : Type} {m m2 : List (String × α)} {k : String}
    (h : dictGet? m k = none) : dictGet? (m ++ m2) k = dictGet? m2 k := by
  induction m with
  | nil => simp
  | cons e es ih =>
    simp only [dictGet?, List.cons_append] at *
    by_cases he : e.1 = k
    · simp [he] at h
    · rw [if_neg he] at h ⊢; exact ih h

lemma dictContains_insert_self {α : Type} (m : List (String × α)) (k : String)
    (v : α) : dictContains (dictInsert m k v) k = true := by
  rw [dictContains_iff]
  exact ⟨v, by simp [dictInsert]⟩

lemma dictContains_insert_mono {α : Type} {m : List (String × α)} {k q : String}
    {v : α} (h : dictContains m q = true) :
    dictContains (dictInsert m k v) q = true := by
  rw [dictContains_iff] at h ⊢
  obtain ⟨w, hw⟩ := h
  exact ⟨w, by simp [dictInsert, hw]⟩

lemma dictContains_erase {α : Type} {m : List (String × α)} {k q : String}
    (hne : q ≠ k) (h : dictContains m q = true) :
    dictContains (dictErase m k) q = true := by
  rw [dictContains_iff] at h ⊢
  obtain ⟨w, hw⟩ := h
  exact ⟨w, by simp [dictErase, List.mem_filter, hw, hne]⟩

lemma mem_dictErase {α : Type} {m : List (String × α)} {k : String}
    {e : String × α} (h : e ∈ dictErase m k) : e ∈ m := by
  simp only [dictErase, List.mem_filter] at h
  exact h.1

/-! ## Python string builtins used by the code -/

/-- Python `s.split("/")` on the character list of `s`: split at every
occurrence of the separator; `"".split("/") == [""]`. -/
def splitSlash : List Char → List (List Char)
  | [] => [[]]
  | c :: cs =>
    match splitSlash cs with
    | [] => [[]]
    | s :: ss => if c = '/' then [] :: s :: ss else (c :: s) :: ss

/-- Python `s.rstrip("/")`: drop trailing `'/'` characters. -/
def rstripSlash (l : List Char) : List Char :=
  (l.reverse.dropWhile (fun c => decide (c = '/'))).reverse

/-- Python `"/".join(parts)`. -/
def joinSlash : List (List Char) → List Char
  | [] => []
  | [s] => s
  | s :: ss => s ++ '/' :: joinSlash ss

/-- Python string `<=`: lexicographic comparison by character code point. -/
def charListLe : List Char → List Char → Bool
  | [], _ => true
  | _ :: _, [] => false
  | a :: as, b :: bs => if a = b then charListLe as bs else decide (a < b)

lemma charListLe_total : ∀ as bs, charListLe as bs = true ∨ charListLe bs as = true := by
  intro as
  induction as with
  | nil => intro bs; left; rfl
  | cons a as ih =>
    intro bs
    cases bs with
    | nil => right; rfl
    | cons b bs =>
      by_cases hab : a = b
      · subst hab
        rcases ih bs with h | h
        · left; simpa [charListLe] using h
        · right; simpa [charListLe] using h
      · rcases lt_or_gt_of_ne hab with h | h
        · left; simp [charListLe, hab, h]
        · right; simp [charListLe, Ne.symm hab, h]

lemma charListLe_trans :
    ∀ as bs cs, charListLe as bs = true → charListLe bs cs = true →
      charListLe as cs = true := by
  intro as
  induction as with
  | nil => intro bs cs _ _; rfl
  | cons a as ih =>
    intro bs cs h1 h2
    cases bs with
    | nil => simp [charListLe] at h1
    | cons b bs =>
      cases cs with
      | nil => simp [charListLe] at h2
      | cons c cs =>
        simp only [charListLe] at h1 h2 ⊢
        by_cases hab : a = b
        · subst hab
          rw [if_pos rfl] at h1
          by_cases hac : a = c
          · subst hac
            rw [if_pos rfl] at h2 ⊢
            exact ih bs cs h1 h2
          · rw [if_neg hac] at h2 ⊢
            exact h2
        · rw [if_neg hab, decide_eq_true_eq] at h1
          by_cases hbc : b = c
          · subst hbc
            rw [if_neg hab, decide_eq_true_eq]
            exact h1
          · rw [if_neg hbc, decide_eq_true_eq] at h2
            have hac : a < c := lt_trans h1 h2
            rw [if_neg (ne_of_lt hac)]
            exact decide_eq_true hac

/-! ## ContentAddressableStorage (demo.py lines 40-77) -/

/-- `ContentAddressableStorage.__init__` state: `_storage` is the dict
`hash → bytes`.  The `threading.RLock` serializes calls and has no effect on
the sequential semantics, so it is not modelled. -/
structure ContentAddressableStorage where
  storage : List (String × Bytes)
deriving DecidableEq

/-- The exception raised on a digest mismatch
(`ValueError("Content integrity violation! ...")`, demo.py line 70). -/
inductive StoreError where
  | integrityViolation
deriving DecidableEq

namespace ContentAddressableStorage

/-- `ContentAddressableStorage.store` (demo.py lines 47-58): hash the bytes;
insert only if the digest key is absent; return the digest unconditionally.
Mutation of `self._storage` is modelled by returning the new store. -/
def store (cas : ContentAddressableStorage) (content : Bytes) :
    String × ContentAddressableStorage :=
  let content_hash := sha256_hexdigest content
  if dictContains cas.storage content_hash
  then (content_hash, cas)
  else (content_hash, ⟨dictInsert cas.storage content_hash content⟩)

/-- `ContentAddressableStorage.retrieve` (demo.py lines 60-72): `.ok none`
models Python returning `None` for an absent key, `.error` models the raised
`ValueError` when the recomputed digest of the stored bytes differs from the
lookup key, and `.ok (some content)` the verified bytes. -/
def retrieve (cas : ContentAddressableStorage) (content_hash : String) :
    Except StoreError (Option Bytes) :=
  match dictGet? cas.storage content_hash with
  | none => .ok none
  | some content =>
      if sha256_hexdigest content = content_hash
      then .ok (some content)
      else .error .integrityViolation

/-- `ContentAddressableStorage.exists` (demo.py lines 74-77): presence check
without integrity verification (`exists` is a Lean keyword, hence the name). -/
def existsContent (cas : ContentAddressableStorage) (content_hash : String) :
    Bool :=
  dictContains cas.storage content_hash

/-- Every binding maps the digest of its bytes to the bytes.  This holds for
every store built through `store`, which only inserts under the computed
digest; out-of-band corruption (claim C5) violates it. -/
def Wf (cas : ContentAddressableStorage) : Prop :=
  ∀ kv ∈ cas.storage, sha256_hexdigest kv.2 = kv.1

instance (cas : ContentAddressableStorage) : Decidable cas.Wf :=
  inferInstanceAs (Decidable (∀ kv ∈ cas.storage, sha256_hexdigest kv.2 = kv.1))

end ContentAddressableStorage

deriving instance DecidableEq for Except

/-! ## Metadata layer (demo.py lines 10-38 and 79-250) -/

/-- The `FileMetadata` dataclass (demo.py lines 10-17).  `created_time`, a
Python float from `time.time()`, is modelled as an abstract timestamp. -/
structure FileMetadata where
  path : String
  content_hash : String
  size : Nat
  created_time : Nat
  is_directory : Bool := false
deriving DecidableEq

/-- The `OperationType` enum plus the `Operation` dataclass (demo.py lines
19-31), embedded as the closed tagged union over the three operation kinds.
The `metadata` payload is carried exactly by `createFile` — the dataclass
declares it `Optional`, but the one `CREATE_FILE` construction site
(`MetadataService.create_file`, line 202) always supplies it, `create_directory`
leaves it `None` and `_apply_operation` never reads it for the other kinds.
`op_id` (an opaque uuid that is never read) is omitted. -/
inductive Operation where
  | createFile (path : String) (metadata : FileMetadata) (timestamp : Nat)
  | createDir (path : String) (timestamp : Nat)
  | delete (path : String) (timestamp : Nat)
deriving DecidableEq

/-- The `path` field of an `Operation`. -/
def Operation.path : Operation → String
  | .createFile p _ _ => p
  | .createDir p _ => p
  | .delete p _ => p

/-- Whether an operation is a `DELETE`. -/
def Operation.isDelete : Operation → Bool
  | .delete _ _ => true
  | _ => false

/-- `RaftLogEntry` (demo.py lines 33-38). -/
structure RaftLogEntry where
  term : Nat
  operation : Operation
  committed : Bool
deriving DecidableEq

/-- The namespace dict `path → FileMetadata` (`self._metadata`). -/
abbrev NamespaceMap := List (String × FileMetadata)

/-- `MetadataService` state (demo.py lines 82-104).  The `RLock` serializes
the methods and is not modelled. -/
structure MetadataService where
  node_id : String
  is_leader : Bool
  current_term : Nat
  metadata : NamespaceMap
  log : List RaftLogEntry
  commit_index : Int
deriving DecidableEq

/-- `MetadataService.__init__` (demo.py lines 82-104): always leader, term 1,
empty log, commit index `-1`, and the root directory `/` pre-inserted
(`time.time()` modelled by `now`). -/
def MetadataService.init (node_id : String) (now : Nat) : MetadataService :=
  { node_id := node_id
    is_leader := true
    current_term := 1
    metadata := [("/", { path := "/", content_hash := "", size := 0,
                         created_time := now, is_directory := true })]
    log := []
    commit_index := -1 }

/-- `MetadataService._parent_directory` (demo.py lines 106-113):
`"/".join(path.rstrip("/").split("/")[:-1]) or "/"`, with `/` its own
parent and single-segment paths parented at `/`. -/
def parent_directory (path : String) : String :=
  if path = "/" then "/"
  else
    let parts := splitSlash (rstripSlash path.data)
    if parts.length ≤ 1 then "/"
    else
      let j := joinSlash parts.dropLast
      if j = [] then "/" else String.mk j

/-- `MetadataService._path_exists` (demo.py lines 115-117). -/
def path_exists (ns : NamespaceMap) (path : String) : Bool :=
  dictContains ns path

/-- `MetadataService._apply_operation` (demo.py lines 119-168).  The Python
method returns `False` before any mutation on every failure path and `True`
after exactly one mutation on success; this is modelled as `none` for `False`
and `some` of the updated namespace for `True`. -/
def apply_operation (ns : NamespaceMap) (op : Operation) : Option NamespaceMap :=
  match op with
  | .createFile path md _ =>
      if ¬ path_exists ns (parent_directory path) then none
      else if path_exists ns path then none
      else some (dictInsert ns path md)
  | .createDir path ts =>
      if ¬ path_exists ns (parent_directory path) then none
      else if path_exists ns path then none
      else some (dictInsert ns path
        { path := path, content_hash := "", size := 0,
          created_time := ts, is_directory := true })
  | .delete path _ =>
      if ¬ path_exists ns path then none
      else some (dictErase ns path)

/-- `MetadataService.propose_operation` (demo.py lines 170-194): a non-leader
rejects immediately; otherwise, under the lock, a log entry is appended, the
operation applied, and on success the entry is marked committed and
`_commit_index` set to `len(self._log) - 1`; on failure the entry is popped
again, restoring the log.  The net effect of the mutation is returned as the
second component. -/
def propose_operation (s : MetadataService) (op : Operation) :
    Bool × MetadataService :=
  if ¬ s.is_leader then (false, s)
  else
    match apply_operation s.metadata op with
    | some ns =>
        (true, { s with
                  metadata := ns
                  log := s.log ++ [{ term := s.current_term, operation := op,
                                     committed := true }]
                  commit_index := (s.log.length : Int) })
    | none => (false, s)

/-- `MetadataService.create_file` (demo.py lines 196-212): builds a
`CREATE_FILE` operation carrying fresh file metadata (`is_directory=False`)
and proposes it (`time.time()` modelled by `now`, the uuid omitted). -/
def MetadataService.create_file (s : MetadataService) (path content_hash : String)
    (size : Nat) (now : Nat) : Bool × MetadataService :=
  propose_operation s (.createFile path
    { path := path, content_hash := content_hash, size := size,
      created_time := now, is_directory := false } now)

/-- `MetadataService.create_directory` (demo.py lines 214-223). -/
def MetadataService.create_directory (s : MetadataService) (path : String)
    (now : Nat) : Bool × MetadataService :=
  propose_operation s (.createDir path now)

/-- The comparison `sorted(children, key=lambda x: x.path)` sorts by: Python
string `<=` on the `path` field. -/
def pathLe (a b : FileMetadata) : Prop :=
  charListLe a.path.data b.path.data = true

instance : DecidableRel pathLe := fun a b =>
  inferInstanceAs (Decidable (charListLe a.path.data b.path.data = true))

instance : IsTotal FileMetadata pathLe :=
  ⟨fun a b => charListLe_total a.path.data b.path.data⟩

instance : IsTrans FileMetadata pathLe :=
  ⟨fun a b c => charListLe_trans a.path.data b.path.data c.path.data⟩

/-- `MetadataService.list_directory` (demo.py lines 225-245): empty list for
an absent path or a non-directory; otherwise the metadata of every entry
whose key's parent directory is `path` (the key `path` itself skipped), in
dict insertion order, finally `sorted(children, key=lambda x: x.path)` —
Python's stable sort, modelled by insertion sort with the same key (stable
sorts by the same key agree pointwise). -/
def MetadataService.list_directory (s : MetadataService) (path : String) :
    List FileMetadata :=
  match dictGet? s.metadata path with
  | none => []
  | some md =>
      if ¬ md.is_directory then []
      else
        let children := (s.metadata.filter
          (fun e => decide (e.1 ≠ path ∧ parent_directory e.1 = path))).map (·.2)
        children.insertionSort pathLe

/-- `MetadataService.get_file_metadata` (demo.py lines 247-250). -/
def MetadataService.get_file_metadata (s : MetadataService) (path : String) :
    Option FileMetadata :=
  dictGet? s.metadata path

/-- A caller driving a sequence of operations through
`MetadataService.propose_operation`, one at a time. -/
def run_ops (s : MetadataService) (ops : List Operation) : MetadataService :=
  ops.foldl (fun acc op => (propose_operation acc op).2) s

/-! ## DistributedFileSystem facade (demo.py lines 252-328) -/

/-- `DistributedFileSystem` (demo.py lines 252-257). -/
structure DistributedFileSystem where
  metadata_service : MetadataService
  data_storage : ContentAddressableStorage
deriving DecidableEq

/-- `DistributedFileSystem.__init__` (demo.py lines 255-257). -/
def DistributedFileSystem.init (now : Nat) : DistributedFileSystem :=
  { metadata_service := MetadataService.init "node-1" now
    data_storage := ⟨[]⟩ }

/-- `DistributedFileSystem.create_file` (demo.py lines 259-274): store the
content first, then propose the metadata operation referencing the returned
hash and the byte length. -/
def DistributedFileSystem.create_file (fs : DistributedFileSystem)
    (path : String) (content : Bytes) (now : Nat) :
    Bool × DistributedFileSystem :=
  let sr := fs.data_storage.store content
  let cr := fs.metadata_service.create_file path sr.1 content.length now
  (cr.1, { metadata_service := cr.2, data_storage := sr.2 })

/-- `DistributedFileSystem.read_file` (demo.py lines 276-288): `None` for a
missing entry or a directory; otherwise the store's `retrieve` result is
returned as-is — the `if content:` on line 285 only guards a print, so empty
bytes are returned like any other content and a `None` from `retrieve` is
passed through. -/
def DistributedFileSystem.read_file (fs : DistributedFileSystem)
    (path : String) : Except StoreError (Option Bytes) :=
  match fs.metadata_service.get_file_metadata path with
  | none => .ok none
  | some md =>
      if md.is_directory then .ok none
      else fs.data_storage.retrieve md.content_hash

/-- `DistributedFileSystem.create_directory` (demo.py lines 290-300). -/
def DistributedFileSystem.create_directory (fs : DistributedFileSystem)
    (path : String) (now : Nat) : Bool × DistributedFileSystem :=
  let cr := fs.metadata_service.create_directory path now
  (cr.1, { fs with metadata_service := cr.2 })

/-- One entry dict built by `DistributedFileSystem.list_directory`
(demo.py lines 310-316). -/
structure DirEntry where
  name : String
  path : String
  type : String
  size : Nat
  created : Nat
deriving DecidableEq

/-- Python `entry.path.split('/')[-1]` (demo.py line 311): `split` always
returns a nonempty list, whose last element is taken. -/
def lastSegment (path : String) : String :=
  String.mk ((splitSlash path.data).getLastD [])

/-- `DistributedFileSystem.list_directory` (demo.py lines 302-328): the
metadata listing rendered as entry dicts (the printing is I/O only). -/
def DistributedFileSystem.list_directory (fs : DistributedFileSystem)
    (path : String) : List DirEntry :=
  (fs.metadata_service.list_directory path).map (fun entry =>
    { name := lastSegment entry.path
      path := entry.path
      type := if entry.is_directory then "directory" else "file"
      size := entry.size
      created := entry.created_time })

/-! ## Supporting lemmas -/

lemma dictGet?_mem {α : Type} {m : List (String × α)} {k : String} {v : α}
    (h : dictGet? m k = some v) : (k, v) ∈ m := by
  induction m with
  | nil => simp [dictGet?] at h
  | cons e es ih =>
    simp only [dictGet?] at h
    by_cases he : e.1 = k
    · rw [if_pos he] at h
      obtain ⟨e1, e2⟩ := e
      cases h
      simp only at he
      subst he
      exact List.mem_cons_self _ _
    · rw [if_neg he] at h
      exact List.mem_cons_of_mem _ (ih h)

lemma store_fst (cas : ContentAddressableStorage) (b : Bytes) :
    (cas.store b).1 = sha256_hexdigest b := by
  by_cases h : dictContains cas.storage (sha256_hexdigest b) = true
  · simp [ContentAddressableStorage.store, h]
  · simp [ContentAddressableStorage.store, h]

lemma store_contains (cas : ContentAddressableStorage) (b : Bytes) :
    dictContains (cas.store b).2.storage (sha256_hexdigest b) = true := by
  by_cases h : dictContains cas.storage (sha256_hexdigest b) = true
  · simp [ContentAddressableStorage.store, h]
  · simp [ContentAddressableStorage.store, h, dictContains_insert_self]

lemma store_wf {cas : ContentAddressableStorage} (hwf : cas.Wf) (b : Bytes) :
    (cas.store b).2.Wf := by
  by_cases h : dictContains cas.storage (sha256_hexdigest b) = true
  · have hs : (cas.store b).2 = cas := by
      simp [ContentAddressableStorage.store, h]
    rw [hs]
    exact hwf
  · have hs : (cas.store b).2.storage
        = dictInsert cas.storage (sha256_hexdigest b) b := by
      simp [ContentAddressableStorage.store, h]
    intro kv hkv
    rw [hs] at hkv
    rcases List.mem_append.mp hkv with hm | hm
    · exact hwf kv hm
    · rcases List.mem_singleton.mp hm with rfl
      rfl

lemma store_retrieve {cas : ContentAddressableStorage} (hwf : cas.Wf)
    (b : Bytes) : (cas.store b).2.retrieve (cas.store b).1 = .ok (some b) := by
  rw [store_fst]
  have hc : dictContains (cas.store b).2.storage (sha256_hexdigest b) = true :=
    store_contains cas b
  unfold dictContains at hc
  obtain ⟨w, hw⟩ := Option.isSome_iff_exists.mp hc
  have hwmem : (sha256_hexdigest b, w) ∈ (cas.store b).2.storage := dictGet?_mem hw
  have hwb : w = b := sha256_hexdigest_inj (store_wf hwf b _ hwmem)
  subst hwb
  simp [ContentAddressableStorage.retrieve, hw]

lemma propose_false {s : MetadataService} {op : Operation}
    (h : (propose_operation s op).1 = false) : (propose_operation s op).2 = s := by
  by_cases hl : s.is_leader = true
  · cases happ : apply_operation s.metadata op with
    | none => simp [propose_operation, hl, happ]
    | some ns =>
      have ht : (propose_operation s op).1 = true := by
        simp [propose_operation, hl, happ]
      rw [ht] at h
      cases h
  · simp [propose_operation, hl]

lemma propose_true {s : MetadataService} {op : Operation}
    (h : (propose_operation s op).1 = true) :
    s.is_leader = true ∧
    ∃ ns, apply_operation s.metadata op = some ns ∧
      (propose_operation s op).2.metadata = ns ∧
      (propose_operation s op).2.log
        = s.log ++ [{ term := s.current_term, operation := op, committed := true }] ∧
      (propose_operation s op).2.commit_index = (s.log.length : Int) := by
  by_cases hl : s.is_leader = true
  · cases happ : apply_operation s.metadata op with
    | none =>
      have hf : (propose_operation s op).1 = false := by
        simp [propose_operation, hl, happ]
      rw [hf] at h
      cases h
    | some ns =>
      refine ⟨hl, ns, rfl, ?_, ?_, ?_⟩ <;> simp [propose_operation, hl, happ]
  · have hf : (propose_operation s op).1 = false := by
      simp [propose_operation, hl]
    rw [hf] at h
    cases h

/-- Exactly one of the two `propose_operation` outcomes happens: the state is
returned untouched, or the operation was applied and the log extended by a
committed entry. -/
lemma propose_snd_cases (s : MetadataService) (op : Operation) :
    (propose_operation s op).2 = s ∨
    ∃ ns, apply_operation s.metadata op = some ns ∧
      (propose_operation s op).2.metadata = ns ∧
      (propose_operation s op).2.log
        = s.log ++ [{ term := s.current_term, operation := op, committed := true }] ∧
      (propose_operation s op).2.commit_index = (s.log.length : Int) := by
  cases h : (propose_operation s op).1 with
  | false => exact Or.inl (propose_false h)
  | true => exact Or.inr (propose_true h).2

lemma apply_some_createFile {ns : NamespaceMap} {p : String} {md : FileMetadata}
    {ts : Nat} {ns2 : NamespaceMap}
    (h : apply_operation ns (.createFile p md ts) = some ns2) :
    path_exists ns (parent_directory p) = true ∧ path_exists ns p = false ∧
      ns2 = dictInsert ns p md := by
  simp only [apply_operation] at h
  by_cases h1 : path_exists ns (parent_directory p) = true
  · rw [if_neg (not_not_intro h1)] at h
    by_cases h2 : path_exists ns p = true
    · rw [if_pos h2] at h
      cases h
    · rw [if_neg h2] at h
      cases h
      exact ⟨h1, by simpa using h2, rfl⟩
  · rw [if_pos h1] at h
    cases h

lemma apply_some_createDir {ns : NamespaceMap} {p : String} {ts : Nat}
    {ns2 : NamespaceMap}
    (h : apply_operation ns (.createDir p ts) = some ns2) :
    path_exists ns (parent_directory p) = true ∧ path_exists ns p = false ∧
      ns2 = dictInsert ns p
        { path := p, content_hash := "", size := 0,
          created_time := ts, is_directory := true } := by
  simp only [apply_operation] at h
  by_cases h1 : path_exists ns (parent_directory p) = true
  · rw [if_neg (not_not_intro h1)] at h
    by_cases h2 : path_exists ns p = true
    · rw [if_pos h2] at h
      cases h
    · rw [if_neg h2] at h
      cases h
      exact ⟨h1, by simpa using h2, rfl⟩
  · rw [if_pos h1] at h
    cases h

lemma apply_some_delete {ns : NamespaceMap} {p : String} {ts : Nat}
    {ns2 : NamespaceMap}
    (h : apply_operation ns (.delete p ts) = some ns2) :
    path_exists ns p = true ∧ ns2 = dictErase ns p := by
  simp only [apply_operation] at h
  by_cases h1 : path_exists ns p = true
  · rw [if_neg (not_not_intro h1)] at h
    cases h
    exact ⟨h1, rfl⟩
  · rw [if_pos h1] at h
    cases h

lemma run_ops_invariant (I : MetadataService → Prop) (P : Operation → Prop)
    (step : ∀ s op, P op → I s → I (propose_operation s op).2) :
    ∀ ops s, (∀ op ∈ ops, P op) → I s → I (run_ops s ops) := by
  intro ops
  induction ops with
  | nil => intro s _ hI; exact hI
  | cons op ops ih =>
    intro s hP hI
    have h1 : I (propose_operation s op).2 :=
      step s op (hP op (List.mem_cons_self _ _)) hI
    exact ih _ (fun o ho => hP o (List.mem_cons_of_mem _ ho)) h1

/-! ## Claims -/

/-- C2 counterexample: from a fresh service, proposing `Delete` of `/`
succeeds and removes the root entry from the namespace, contradicting the
claim that no operation can remove `/`. -/
theorem C2_counterexample :
    (propose_operation (MetadataService.init "node-1" 0)
        (Operation.delete "/" 0)).1 = true
    ∧ path_exists (propose_operation (MetadataService.init "node-1" 0)
        (Operation.delete "/" 0)).2.metadata "/" = false := by decide

/-- C2 (amended): the root `/` is present in the fresh service and in every
state reached by a sequence of proposed operations none of which is a
`Delete` targeting `/`. -/
theorem C2_root_present (n : String) (t : Nat) (ops : List Operation)
    (hops : ∀ op ∈ ops, op.isDelete = true → op.path ≠ "/") :
    path_exists (run_ops (MetadataService.init n t) ops).metadata "/" = true := by
  have step : ∀ s op, (op.isDelete = true → op.path ≠ "/") →
      path_exists s.metadata "/" = true →
      path_exists (propose_operation s op).2.metadata "/" = true := by
    intro s op hop hI
    rcases propose_snd_cases s op with hcase | ⟨ns, happ, hm, _, _⟩
    · rw [hcase]
      exact hI
    · rw [hm]
      cases op with
      | createFile p md ts =>
        obtain ⟨_, _, hns⟩ := apply_some_createFile happ
        rw [hns]
        exact dictContains_insert_mono hI
      | createDir p ts =>
        obtain ⟨_, _, hns⟩ := apply_some_createDir happ
        rw [hns]
        exact dictContains_insert_mono hI
      | delete p ts =>
        obtain ⟨_, hns⟩ := apply_some_delete happ
        rw [hns]
        have hp : p ≠ "/" := by simpa [Operation.path] using hop rfl
        exact dictContains_erase (Ne.symm hp) hI
  exact run_ops_invariant (fun s2 => path_exists s2.metadata "/" = true)
    (fun op => op.isDelete = true → op.path ≠ "/") step ops _ hops
    (by simp [MetadataService.init, path_exists, dictContains, dictGet?])

/-- Witness for C2 at a concrete delete-free-of-root operation sequence. -/
theorem C2_root_present_witness :
    path_exists (run_ops (MetadataService.init "node-1" 0)
      [Operation.createDir "/a" 0, Operation.delete "/a" 0]).metadata "/" = true :=
  C2_root_present "node-1" 0 [Operation.createDir "/a" 0, Operation.delete "/a" 0]
    (by decide)

/-- C4: storing the same byte sequence twice returns the same digest both
times, and the second call leaves the underlying storage map unchanged —
hence same key set, same values, same size, and only one stored copy of the
bytes. -/
theorem C4_store_idempotent (cas : ContentAddressableStorage) (content : Bytes) :
    ((cas.store content).2.store content).1 = (cas.store content).1
    ∧ ((cas.store content).2.store content).2 = (cas.store content).2 := by
  constructor
  · rw [store_fst, store_fst]
  · have hc := store_contains cas content
    generalize (cas.store content).2 = s1 at hc ⊢
    simp [ContentAddressableStorage.store, hc]

/-- C5: `retrieve` returns the not-found result for an absent key, returns
the stored bytes when their recomputed digest matches the key, and on a
mismatching binding signals `IntegrityViolation` and never returns any
bytes. -/
theorem C5_retrieve_integrity (cas : ContentAddressableStorage) (k : String) :
    (dictGet? cas.storage k = none → cas.retrieve k = .ok none)
    ∧ (∀ content, dictGet? cas.storage k = some content →
        sha256_hexdigest content = k → cas.retrieve k = .ok (some content))
    ∧ (∀ content, dictGet? cas.storage k = some content →
        sha256_hexdigest content ≠ k →
          cas.retrieve k = .error .integrityViolation
          ∧ ∀ b, cas.retrieve k ≠ .ok (some b)) := by
  refine ⟨?_, ?_, ?_⟩
  · intro hg
    simp [ContentAddressableStorage.retrieve, hg]
  · intro content hg hd
    simp [ContentAddressableStorage.retrieve, hg, hd]
  · intro content hg hd
    constructor
    · simp [ContentAddressableStorage.retrieve, hg, hd]
    · intro b
      simp [ContentAddressableStorage.retrieve, hg, hd]

/-- Witness for C5 at a concrete out-of-band-corrupted store. -/
theorem C5_retrieve_integrity_witness :
    ContentAddressableStorage.retrieve ⟨[("zz", [(5 : Fin 256)])]⟩ "zz"
      = .error .integrityViolation :=
  ((C5_retrieve_integrity ⟨[("zz", [(5 : Fin 256)])]⟩ "zz").2.2
    [(5 : Fin 256)] (by decide) (by decide)).1

/-- C6: a proposal that fails returns `false` and leaves the whole service
state — namespace and log included — unchanged, and in every reachable state
every retained log entry is committed and the commit index is the index of
the last log entry. -/
theorem C6_rejected_log (s : MetadataService) (op : Operation)
    (n : String) (t : Nat) (ops : List Operation)
    (hfail : apply_operation s.metadata op = none) :
    (propose_operation s op).1 = false
    ∧ (propose_operation s op).2 = s
    ∧ (run_ops (MetadataService.init n t) ops).log.all
        (fun e => e.committed) = true
    ∧ (run_ops (MetadataService.init n t) ops).commit_index
        = ((run_ops (MetadataService.init n t) ops).log.length : Int) - 1 := by
  have hfalse : (propose_operation s op).1 = false := by
    by_cases hl : s.is_leader = true
    · simp [propose_operation, hl, hfail]
    · simp [propose_operation, hl]
  have step : ∀ s2 op2, True →
      (s2.log.all (fun e => e.committed) = true ∧
        s2.commit_index = (s2.log.length : Int) - 1) →
      ((propose_operation s2 op2).2.log.all (fun e => e.committed) = true ∧
        (propose_operation s2 op2).2.commit_index
          = ((propose_operation s2 op2).2.log.length : Int) - 1) := by
    intro s2 op2 _ hI
    rcases propose_snd_cases s2 op2 with hcase | ⟨ns, happ, hm, hlog, hci⟩
    · rw [hcase]
      exact hI
    · constructor
      · rw [hlog]
        simp [List.all_append, hI.1]
      · rw [hci, hlog]
        simp only [List.length_append, List.length_singleton]
        push_cast
        omega
  have hinv := run_ops_invariant
    (fun s2 => s2.log.all (fun e => e.committed) = true ∧
      s2.commit_index = (s2.log.length : Int) - 1)
    (fun _ => True) step ops (MetadataService.init n t)
    (fun _ _ => trivial) ⟨rfl, by simp [MetadataService.init]⟩
  exact ⟨hfalse, propose_false hfalse, hinv.1, hinv.2⟩

/-- Witness for C6 at a concrete rejected proposal and operation sequence. -/
theorem C6_rejected_log_witness :
    (propose_operation (MetadataService.init "node-1" 0)
        (Operation.createFile "/x/y" ⟨"/x/y", "xh", 1, 0, false⟩ 0)).1 = false
    ∧ (propose_operation (MetadataService.init "node-1" 0)
        (Operation.createFile "/x/y" ⟨"/x/y", "xh", 1, 0, false⟩ 0)).2
      = MetadataService.init "node-1" 0
    ∧ (run_ops (MetadataService.init "node-1" 0)
        [Operation.createDir "/a" 0]).log.all (fun e => e.committed) = true
    ∧ (run_ops (MetadataService.init "node-1" 0)
        [Operation.createDir "/a" 0]).commit_index
      = ((run_ops (MetadataService.init "node-1" 0)
          [Operation.createDir "/a" 0]).log.length : Int) - 1 :=
  C6_rejected_log (MetadataService.init "node-1" 0)
    (Operation.createFile "/x/y" ⟨"/x/y", "xh", 1, 0, false⟩ 0)
    "node-1" 0 [Operation.createDir "/a" 0] (by decide)

/-- C1 counterexample: two concrete runs violate the claimed invariant.
After `CreateFile /a; CreateFile /a/b` (both succeed), the entry `/a/b` has
the parent `/a` whose metadata is not a directory; after
`CreateDir /a; CreateFile /a/b; Delete /a`, the entry `/a/b` remains while
its parent path is absent from the namespace. -/
theorem C1_counterexample :
    (path_exists (run_ops (MetadataService.init "node-1" 0)
        [Operation.createFile "/a" ⟨"/a", "xaa", 1, 0, false⟩ 0,
         Operation.createFile "/a/b" ⟨"/a/b", "xbb", 1, 0, false⟩ 0]).metadata
        "/a/b" = true
      ∧ (MetadataService.get_file_metadata (run_ops (MetadataService.init "node-1" 0)
          [Operation.createFile "/a" ⟨"/a", "xaa", 1, 0, false⟩ 0,
           Operation.createFile "/a/b" ⟨"/a/b", "xbb", 1, 0, false⟩ 0]) "/a").map
          (fun m => m.is_directory) = some false)
    ∧ (path_exists (run_ops (MetadataService.init "node-1" 0)
        [Operation.createDir "/a" 0,
         Operation.createFile "/a/b" ⟨"/a/b", "xbb", 1, 0, false⟩ 0,
         Operation.delete "/a" 0]).metadata "/a/b" = true
      ∧ path_exists (run_ops (MetadataService.init "node-1" 0)
          [Operation.createDir "/a" 0,
           Operation.createFile "/a/b" ⟨"/a/b", "xbb", 1, 0, false⟩ 0,
           Operation.delete "/a" 0]).metadata (parent_directory "/a/b") = false) := by
  decide

/-- C1 (amended): a `CreateFile` or `CreateDirectory` whose parent path is
absent from the namespace is rejected and leaves the service state unchanged;
and for every sequence of operations containing no `Delete`, every namespace
entry except the root has a parent path that exists in the namespace (the
parent need not be a directory). -/
theorem C1_parent_exists (n : String) (t : Nat) (ops : List Operation)
    (hops : ∀ op ∈ ops, op.isDelete = false)
    (s : MetadataService) (op : Operation)
    (hnd : op.isDelete = false)
    (hpar : path_exists s.metadata (parent_directory op.path) = false) :
    (∀ kv ∈ (run_ops (MetadataService.init n t) ops).metadata, kv.1 ≠ "/" →
        path_exists (run_ops (MetadataService.init n t) ops).metadata
          (parent_directory kv.1) = true)
    ∧ (propose_operation s op).1 = false ∧ (propose_operation s op).2 = s := by
  have happ : apply_operation s.metadata op = none := by
    cases op with
    | createFile p md ts =>
      simp only [Operation.path] at hpar
      simp [apply_operation, hpar]
    | createDir p ts =>
      simp only [Operation.path] at hpar
      simp [apply_operation, hpar]
    | delete p ts => simp [Operation.isDelete] at hnd
  have hprop : (propose_operation s op).1 = false := by
    by_cases hl : s.is_leader = true
    · simp [propose_operation, hl, happ]
    · simp [propose_operation, hl]
  have step : ∀ s2 op2, op2.isDelete = false →
      (∀ kv ∈ s2.metadata, kv.1 ≠ "/" →
        path_exists s2.metadata (parent_directory kv.1) = true) →
      (∀ kv ∈ (propose_operation s2 op2).2.metadata, kv.1 ≠ "/" →
        path_exists (propose_operation s2 op2).2.metadata
          (parent_directory kv.1) = true) := by
    intro s2 op2 hop hI
    rcases propose_snd_cases s2 op2 with hcase | ⟨ns, happ2, hm, _, _⟩
    · rw [hcase]
      exact hI
    · rw [hm]
      cases op2 with
      | createFile p md ts =>
        obtain ⟨h1, _, hns⟩ := apply_some_createFile happ2
        rw [hns]
        intro kv hkv hne
        rcases List.mem_append.mp hkv with hin | hin
        · exact dictContains_insert_mono (hI kv hin hne)
        · rcases List.mem_singleton.mp hin with rfl
          exact dictContains_insert_mono h1
      | createDir p ts =>
        obtain ⟨h1, _, hns⟩ := apply_some_createDir happ2
        rw [hns]
        intro kv hkv hne
        rcases List.mem_append.mp hkv with hin | hin
        · exact dictContains_insert_mono (hI kv hin hne)
        · rcases List.mem_singleton.mp hin with rfl
          exact dictContains_insert_mono h1
      | delete p ts => simp [Operation.isDelete] at hop
  have hinit : ∀ kv ∈ (MetadataService.init n t).metadata, kv.1 ≠ "/" →
      path_exists (MetadataService.init n t).metadata
        (parent_directory kv.1) = true := by
    intro kv hkv hne
    rcases List.mem_singleton.mp hkv with rfl
    exact absurd rfl hne
  exact ⟨run_ops_invariant
    (fun s2 => ∀ kv ∈ s2.metadata, kv.1 ≠ "/" →
      path_exists s2.metadata (parent_directory kv.1) = true)
    (fun op2 => op2.isDelete = false) step ops _ hops hinit,
    hprop, propose_false hprop⟩

/-- Witness for C1 at a concrete delete-free sequence and a concrete
creation under an absent parent. -/
theorem C1_parent_exists_witness :
    (∀ kv ∈ (run_ops (MetadataService.init "node-1" 0)
        [Operation.createDir "/a" 0]).metadata, kv.1 ≠ "/" →
      path_exists (run_ops (MetadataService.init "node-1" 0)
        [Operation.createDir "/a" 0]).metadata (parent_directory kv.1) = true)
    ∧ (propose_operation (MetadataService.init "node-1" 0)
        (Operation.createFile "/x/y" ⟨"/x/y", "xh", 1, 0, false⟩ 0)).1 = false
    ∧ (propose_operation (MetadataService.init "node-1" 0)
        (Operation.createFile "/x/y" ⟨"/x/y", "xh", 1, 0, false⟩ 0)).2
      = MetadataService.init "node-1" 0 :=
  C1_parent_exists "node-1" 0 [Operation.createDir "/a" 0] (by decide)
    (MetadataService.init "node-1" 0)
    (Operation.createFile "/x/y" ⟨"/x/y", "xh", 1, 0, false⟩ 0)
    (by decide) (by decide)

/-- The operations the amended C9 ranges over: `CREATE_FILE` proposals whose
payload is a file entry with a nonempty hash — exactly what
`MetadataService.create_file` builds when its `content_hash` argument is
nonempty — plus directory creation and deletion. -/
def goodOp : Operation → Bool
  | .createFile _ md _ => !md.is_directory && !(md.content_hash == "")
  | .createDir _ _ => true
  | .delete _ _ => true

/-- C9 counterexample: `create_file` accepts the empty string as a
`content_hash` argument; the resulting entry is a non-directory whose
`content_hash` is empty, so the claimed iff-invariant fails. -/
theorem C9_counterexample :
    (MetadataService.create_file (MetadataService.init "node-1" 0)
        "/a" "" 5 0).1 = true
    ∧ ¬ (∀ kv ∈ (MetadataService.create_file (MetadataService.init "node-1" 0)
          "/a" "" 5 0).2.metadata,
          (kv.2.content_hash = "" ↔ kv.2.is_directory = true)) := by decide

/-- C9 (amended): in every state reachable through `create_file` with a
nonempty `content_hash` argument, `create_directory`, and `Delete` proposals,
every metadata entry has an empty `content_hash` exactly when it is a
directory. -/
theorem C9_hash_iff_directory (n : String) (t : Nat) (ops : List Operation)
    (hops : ∀ op ∈ ops, goodOp op = true) :
    ∀ kv ∈ (run_ops (MetadataService.init n t) ops).metadata,
      (kv.2.content_hash = "" ↔ kv.2.is_directory = true) := by
  have step : ∀ s2 op2, goodOp op2 = true →
      (∀ kv ∈ s2.metadata, (kv.2.content_hash = "" ↔ kv.2.is_directory = true)) →
      (∀ kv ∈ (propose_operation s2 op2).2.metadata,
        (kv.2.content_hash = "" ↔ kv.2.is_directory = true)) := by
    intro s2 op2 hop hI
    rcases propose_snd_cases s2 op2 with hcase | ⟨ns, happ2, hm, _, _⟩
    · rw [hcase]
      exact hI
    · rw [hm]
      cases op2 with
      | createFile p md ts =>
        obtain ⟨_, _, hns⟩ := apply_some_createFile happ2
        rw [hns]
        intro kv hkv
        rcases List.mem_append.mp hkv with hin | hin
        · exact hI kv hin
        · rcases List.mem_singleton.mp hin with rfl
          simp only [goodOp, Bool.and_eq_true, Bool.not_eq_true',
            beq_eq_false_iff_ne, ne_eq] at hop
          simp [hop.1, hop.2]
      | createDir p ts =>
        obtain ⟨_, _, hns⟩ := apply_some_createDir happ2
        rw [hns]
        intro kv hkv
        rcases List.mem_append.mp hkv with hin | hin
        · exact hI kv hin
        · rcases List.mem_singleton.mp hin with rfl
          simp
      | delete p ts =>
        obtain ⟨_, hns⟩ := apply_some_delete happ2
        rw [hns]
        intro kv hkv
        exact hI kv (mem_dictErase hkv)
  have hinit : ∀ kv ∈ (MetadataService.init n t).metadata,
      (kv.2.content_hash = "" ↔ kv.2.is_directory = true) := by
    intro kv hkv
    rcases List.mem_singleton.mp hkv with rfl
    simp
  exact run_ops_invariant
    (fun s2 => ∀ kv ∈ s2.metadata,
      (kv.2.content_hash = "" ↔ kv.2.is_directory = true))
    (fun op2 => goodOp op2 = true) step ops _ hops hinit

/-- Witness for C9 at a concrete sequence of well-formed operations,
instantiated at the file entry surviving the run. -/
theorem C9_hash_iff_directory_witness :
    ((("/a/f" : String),
        ({ path := "/a/f", content_hash := "xff", size := 1, created_time := 0,
           is_directory := false } : FileMetadata)).2.content_hash = ""
      ↔ (("/a/f" : String),
          ({ path := "/a/f", content_hash := "xff", size := 1, created_time := 0,
             is_directory := false } : FileMetadata)).2.is_directory = true) :=
  C9_hash_iff_directory "node-1" 0
    [Operation.createDir "/a" 0,
     Operation.createFile "/a/f" ⟨"/a/f", "xff", 1, 0, false⟩ 0,
     Operation.delete "/a" 0] (by decide)
    ("/a/f", ⟨"/a/f", "xff", 1, 0, false⟩) (by decide)

/-- C7: `list_directory` returns the empty sequence — not an error — when
the path is absent or not a directory; otherwise it returns, sorted by the
`path` field in ascending lexicographic order, exactly the metadata of the
entries whose parent path resolves to the listed path, the listed path
itself excluded. -/
theorem C7_list_children (s : MetadataService) (p : String) :
    (MetadataService.get_file_metadata s p = none → s.list_directory p = [])
    ∧ (∀ md, MetadataService.get_file_metadata s p = some md →
        md.is_directory = false → s.list_directory p = [])
    ∧ (∀ md, MetadataService.get_file_metadata s p = some md →
        md.is_directory = true →
        List.Sorted pathLe (s.list_directory p)
        ∧ (s.list_directory p).Perm
            ((s.metadata.filter
              (fun e => decide (e.1 ≠ p ∧ parent_directory e.1 = p))).map
              (fun e => e.2))
        ∧ (∀ m, m ∈ s.list_directory p ↔
            ∃ k, (k, m) ∈ s.metadata ∧ k ≠ p ∧ parent_directory k = p)) := by
  refine ⟨?_, ?_, ?_⟩
  · intro hg
    have hg2 : dictGet? s.metadata p = none := hg
    simp [MetadataService.list_directory, hg2]
  · intro md hg hdir
    have hg2 : dictGet? s.metadata p = some md := hg
    simp [MetadataService.list_directory, hg2, hdir]
  · intro md hg hdir
    have hg2 : dictGet? s.metadata p = some md := hg
    have hres : s.list_directory p
        = ((s.metadata.filter
            (fun e => decide (e.1 ≠ p ∧ parent_directory e.1 = p))).map
            (fun e => e.2)).insertionSort pathLe := by
      simp [MetadataService.list_directory, hg2, hdir]
    rw [hres]
    refine ⟨List.sorted_insertionSort pathLe _, List.perm_insertionSort pathLe _, ?_⟩
    intro m
    rw [(List.perm_insertionSort pathLe _).mem_iff]
    simp only [List.mem_map, List.mem_filter, decide_eq_true_eq]
    constructor
    · rintro ⟨e, ⟨hmem, hne, hpar⟩, rfl⟩
      exact ⟨e.1, by simpa using hmem, hne, hpar⟩
    · rintro ⟨k, hmem, hne, hpar⟩
      exact ⟨(k, m), ⟨hmem, hne, hpar⟩, rfl⟩

/-- Witness for C7 at a concrete namespace: listing `/d` with two files
inserted out of order. -/
theorem C7_list_children_witness :
    List.Sorted pathLe ((run_ops (MetadataService.init "node-1" 0)
      [Operation.createDir "/d" 0,
       Operation.createFile "/d/b" ⟨"/d/b", "xbb", 1, 0, false⟩ 0,
       Operation.createFile "/d/a" ⟨"/d/a", "xaa", 1, 0, false⟩ 0]).list_directory
      "/d") :=
  ((C7_list_children (run_ops (MetadataService.init "node-1" 0)
      [Operation.createDir "/d" 0,
       Operation.createFile "/d/b" ⟨"/d/b", "xbb", 1, 0, false⟩ 0,
       Operation.createFile "/d/a" ⟨"/d/a", "xaa", 1, 0, false⟩ 0]) "/d").2.2
    ⟨"/d", "", 0, 0, true⟩ (by decide) rfl).1

/-- On a successful `create_file`, the file metadata committed for the path
is exactly the record built from the stored digest and byte length, appended
to the previous namespace, the path having been absent and its parent
present. -/
lemma create_file_success {fs : DistributedFileSystem} {p : String} {b : Bytes}
    {now : Nat} (hs : (fs.create_file p b now).1 = true) :
    path_exists fs.metadata_service.metadata (parent_directory p) = true
    ∧ path_exists fs.metadata_service.metadata p = false
    ∧ (fs.create_file p b now).2.metadata_service.metadata
        = dictInsert fs.metadata_service.metadata p
            { path := p, content_hash := (fs.data_storage.store b).1,
              size := b.length, created_time := now, is_directory := false } := by
  have hs2 : (propose_operation fs.metadata_service
      (.createFile p
        { path := p, content_hash := (fs.data_storage.store b).1,
          size := b.length, created_time := now, is_directory := false }
        now)).1 = true := hs
  obtain ⟨_, ns, happ, hm, _, _⟩ := propose_true hs2
  obtain ⟨hpar, hnotex, hns⟩ := apply_some_createFile happ
  refine ⟨hpar, hnotex, ?_⟩
  have hm2 : (fs.create_file p b now).2.metadata_service.metadata = ns := hm
  rw [hm2, hns]

/-- Read-after-write at the facade: a successful `create_file` on a
well-formed store is followed by a `read_file` that returns exactly the
written bytes. -/
lemma create_file_read (fs : DistributedFileSystem) (p : String) (b : Bytes)
    (now : Nat) (hwf : fs.data_storage.Wf)
    (hs : (fs.create_file p b now).1 = true) :
    (fs.create_file p b now).2.read_file p = .ok (some b) := by
  obtain ⟨hpar, hnotex, hmeta⟩ := create_file_success hs
  have hget : MetadataService.get_file_metadata
      (fs.create_file p b now).2.metadata_service p
      = some { path := p, content_hash := (fs.data_storage.store b).1,
               size := b.length, created_time := now, is_directory := false } := by
    show dictGet? (fs.create_file p b now).2.metadata_service.metadata p = some _
    rw [hmeta]
    unfold dictInsert
    rw [dictGet?_append_right (dictGet?_eq_none.mpr hnotex)]
    simp [dictGet?]
  have hds : (fs.create_file p b now).2.data_storage
      = (fs.data_storage.store b).2 := rfl
  simp only [DistributedFileSystem.read_file, hget, hds]
  exact store_retrieve hwf b

/-- C3 counterexample: `create_file` succeeds under a parent that is a plain
file (`/a`), and the subsequent `list_directory` of that parent is empty, so
it does not include the created path. -/
theorem C3_counterexample :
    ((DistributedFileSystem.init 0).create_file "/a" [(1 : Fin 256)] 0).1 = true
    ∧ ((((DistributedFileSystem.init 0).create_file "/a"
        [(1 : Fin 256)] 0).2).create_file "/a/b" [(2 : Fin 256)] 0).1 = true
    ∧ (((((DistributedFileSystem.init 0).create_file "/a"
        [(1 : Fin 256)] 0).2).create_file "/a/b"
        [(2 : Fin 256)] 0).2).list_directory (parent_directory "/a/b") = [] := by
  decide

/-- C3 (amended): on a well-formed store, after `create_file(p, b)` returns
true an immediate `read_file(p)` returns exactly `b`; and whenever the
metadata entry of `p`'s parent is a directory, `list_directory` of the parent
includes an entry whose path is `p` and whose size is the length of `b` (the
code also accepts a plain file as parent, in which case the listing is
empty). -/
theorem C3_read_after_write (fs : DistributedFileSystem) (p : String) (b : Bytes)
    (now : Nat) (hwf : fs.data_storage.Wf)
    (hs : (fs.create_file p b now).1 = true) :
    (fs.create_file p b now).2.read_file p = .ok (some b)
    ∧ (∀ pmd, MetadataService.get_file_metadata fs.metadata_service
          (parent_directory p) = some pmd →
        pmd.is_directory = true →
        ∃ e ∈ (fs.create_file p b now).2.list_directory (parent_directory p),
          e.path = p ∧ e.size = b.length) := by
  refine ⟨create_file_read fs p b now hwf hs, ?_⟩
  intro pmd hpmd hpdir
  obtain ⟨hpar, hnotex, hmeta⟩ := create_file_success hs
  have hpq : p ≠ parent_directory p := by
    intro he
    rw [← he] at hpar
    rw [hpar] at hnotex
    cases hnotex
  have hget : MetadataService.get_file_metadata
      (fs.create_file p b now).2.metadata_service (parent_directory p)
      = some pmd := by
    show dictGet? (fs.create_file p b now).2.metadata_service.metadata
      (parent_directory p) = some pmd
    rw [hmeta]
    exact dictGet?_append_left hpmd
  have hmem : ((p : String),
      ({ path := p, content_hash := (fs.data_storage.store b).1,
         size := b.length, created_time := now,
         is_directory := false } : FileMetadata))
      ∈ (fs.create_file p b now).2.metadata_service.metadata := by
    rw [hmeta]
    exact List.mem_append_right _ (List.mem_singleton.mpr rfl)
  have hchild : ({ path := p, content_hash := (fs.data_storage.store b).1,
                   size := b.length, created_time := now,
                   is_directory := false } : FileMetadata)
      ∈ (fs.create_file p b now).2.metadata_service.list_directory
          (parent_directory p) := by
    have hg2 : dictGet? (fs.create_file p b now).2.metadata_service.metadata
        (parent_directory p) = some pmd := hget
    have hres : (fs.create_file p b now).2.metadata_service.list_directory
        (parent_directory p)
        = (((fs.create_file p b now).2.metadata_service.metadata.filter
            (fun e => decide (e.1 ≠ parent_directory p
              ∧ parent_directory e.1 = parent_directory p))).map
            (fun e => e.2)).insertionSort pathLe := by
      simp [MetadataService.list_directory, hg2, hpdir]
    rw [hres, (List.perm_insertionSort pathLe _).mem_iff]
    refine List.mem_map.mpr ⟨_, List.mem_filter.mpr ⟨hmem, ?_⟩, rfl⟩
    simp only [decide_eq_true_eq]
    exact ⟨hpq, trivial⟩
  refine ⟨{ name := lastSegment p, path := p,
            type := "file", size := b.length, created := now }, ?_, rfl, rfl⟩
  show _ ∈ (fs.create_file p b now).2.list_directory (parent_directory p)
  unfold DistributedFileSystem.list_directory
  exact List.mem_map.mpr ⟨_, hchild, rfl⟩

/-- Witness for C3 at a concrete run: create `/d`, then `/d/f` with one
byte. -/
theorem C3_read_after_write_witness :
    (((DistributedFileSystem.init 0).create_directory "/d" 0).2.create_file
        "/d/f" [(7 : Fin 256)] 0).2.read_file "/d/f" = .ok (some [(7 : Fin 256)])
    ∧ (∀ pmd, MetadataService.get_file_metadata
          ((DistributedFileSystem.init 0).create_directory "/d" 0).2.metadata_service
          (parent_directory "/d/f") = some pmd →
        pmd.is_directory = true →
        ∃ e ∈ (((DistributedFileSystem.init 0).create_directory "/d"
              0).2.create_file "/d/f" [(7 : Fin 256)] 0).2.list_directory
            (parent_directory "/d/f"),
          e.path = "/d/f" ∧ e.size = [(7 : Fin 256)].length) :=
  C3_read_after_write ((DistributedFileSystem.init 0).create_directory "/d" 0).2
    "/d/f" [(7 : Fin 256)] 0 (by decide) (by decide)

/-- C8 counterexample: `read_file` of a path with no metadata entry and
`read_file` of a path whose metadata references a hash absent from the store
produce the identical absent result, so a caller cannot distinguish them. -/
theorem C8_counterexample :
    (DistributedFileSystem.init 0).read_file "/x" = .ok none
    ∧ DistributedFileSystem.read_file
        ⟨{ node_id := "node-1", is_leader := true, current_term := 1,
           metadata := [("/", ⟨"/", "", 0, 0, true⟩),
                        ("/x", ⟨"/x", "xff", 1, 0, false⟩)],
           log := [], commit_index := -1 }, ⟨[]⟩⟩ "/x" = .ok none := by decide

/-- C8 (amended): a missing metadata entry and a metadata entry whose
referenced hash is absent from the store both make `read_file` return the
same absent result (`None`); the missing-content case is not surfaced
distinctly from path-not-found. -/
theorem C8_missing_content (fs : DistributedFileSystem) (p : String) :
    (fs.metadata_service.get_file_metadata p = none → fs.read_file p = .ok none)
    ∧ (∀ md, fs.metadata_service.get_file_metadata p = some md →
        md.is_directory = false →
        dictGet? fs.data_storage.storage md.content_hash = none →
        fs.read_file p = .ok none) := by
  constructor
  · intro hg
    simp [DistributedFileSystem.read_file, hg]
  · intro md hg hdir hh
    simp [DistributedFileSystem.read_file, hg, hdir,
      ContentAddressableStorage.retrieve, hh]

/-- Witness for C8 at a concrete externally-pruned store. -/
theorem C8_missing_content_witness :
    DistributedFileSystem.read_file
      ⟨{ node_id := "node-1", is_leader := true, current_term := 1,
         metadata := [("/", ⟨"/", "", 0, 0, true⟩),
                      ("/y", ⟨"/y", "xaa", 1, 0, false⟩)],
         log := [], commit_index := -1 }, ⟨[]⟩⟩ "/y" = .ok none :=
  (C8_missing_content
    ⟨{ node_id := "node-1", is_leader := true, current_term := 1,
       metadata := [("/", ⟨"/", "", 0, 0, true⟩),
                    ("/y", ⟨"/y", "xaa", 1, 0, false⟩)],
       log := [], commit_index := -1 }, ⟨[]⟩⟩ "/y").2
    ⟨"/y", "xaa", 1, 0, false⟩ (by decide) (by decide) (by decide)

/-- C10: when `create_file` of the empty byte sequence succeeds on a
well-formed store, `read_file` returns the present-but-empty result, which
is distinct from the absent result used for missing paths. -/
theorem C10_empty_file (fs : DistributedFileSystem) (p : String) (now : Nat)
    (hwf : fs.data_storage.Wf)
    (hs : (fs.create_file p [] now).1 = true) :
    (fs.create_file p [] now).2.read_file p = .ok (some ([] : Bytes))
    ∧ (Except.ok (some ([] : Bytes)) : Except StoreError (Option Bytes))
        ≠ .ok none :=
  ⟨create_file_read fs p [] now hwf hs, by simp⟩

/-- Witness for C10: an empty file at `/e` in a fresh filesystem. -/
theorem C10_empty_file_witness :
    ((DistributedFileSystem.init 0).create_file "/e" [] 0).2.read_file "/e"
      = .ok (some ([] : Bytes))
    ∧ (Except.ok (some ([] : Bytes)) : Except StoreError (Option Bytes))
        ≠ .ok none :=
  C10_empty_file (DistributedFileSystem.init 0) "/e" 0 (by decide) (by decide)

end Demo
